import Mathlib

/-!
# Verification of `logistic_reg_two_features` (src/app.js and its variant)

Shallow embedding of the core of the repository: the seeded dataset
generator, the CSV export, the weight-sequence parser, the boundary-line
geometry, and the animation/step state machine.

Modelling conventions:
* JS numbers are modelled as exact rationals (`ℚ`).  Every `ℚ` is finite,
  so the `Number.isFinite` guards of the source hold on every `ℚ`; the
  parser additionally models non-finite `parseFloat` results (`NaN`,
  `±Infinity`) explicitly via `JsNum`, since those are produced from
  strings and then rejected by the `isFinite` filter.
* JS strings are modelled as `List Char`; string literals of the source
  appear via `String.toList`.
* The Box–Muller sampler `randn` of the source produces irrational real
  values (it uses `Math.sqrt`, `Math.log`, `Math.cos`); the generator is
  therefore parametrised by an abstract draw stream `noise : ℕ → ℚ`,
  where `noise k` is the value of the k-th call to `randn(rng)`.  All
  properties proved about the generator hold for every stream, hence in
  particular for the stream realised by `mulberry32`/`randn`.
-/

/-- A labelled data point, `{x1, x2, y}` of `generateData` (src/app.js). -/
structure Point where
  x1 : ℚ
  x2 : ℚ
  y : ℕ
deriving Repr, DecidableEq

/-- A weight triple `{w0, w1, w2}` as produced by `parseWeightsCsv`. -/
structure Weight where
  w0 : ℚ
  w1 : ℚ
  w2 : ℚ
deriving Repr, DecidableEq

/-- A chart point `{x, y}` as pushed to the Chart.js dataset. -/
structure Pt where
  x : ℚ
  y : ℚ
deriving Repr, DecidableEq

/-- Chart axis bounds, `chart.options.scales.{x,y}.{min,max}`. -/
structure Bounds where
  xMin : ℚ
  xMax : ℚ
  yMin : ℚ
  yMax : ℚ
deriving Repr, DecidableEq

/-- The epsilon threshold `1e-12` of `setDecisionLineFromWeights`. -/
def eps : ℚ := 1 / 10 ^ 12

/-- The pure geometry of `setDecisionLineFromWeights` (src/app.js lines
207–236): given the weight triple and the current axis bounds, the list of
endpoints written to `ds.data`.  The `[w0,w1,w2].every(Number.isFinite)`
guard of the source holds for every `ℚ` triple (rationals model finite
doubles), so it is not re-tested here. -/
def decisionLineData (w : Weight) (b : Bounds) : List Pt :=
  if |w.w2| > eps then
    [⟨b.xMin, -(w.w0 + w.w1 * b.xMin) / w.w2⟩,
     ⟨b.xMax, -(w.w0 + w.w1 * b.xMax) / w.w2⟩]
  else if |w.w1| > eps then
    [⟨-w.w0 / w.w1, b.yMin⟩, ⟨-w.w0 / w.w1, b.yMax⟩]
  else
    []

/-- The pure geometry of `setBaselineLine` (src/app.js lines 196–205):
the horizontal segment `x2 = 0` across the current x-bounds. -/
def baselineData (b : Bounds) : List Pt :=
  [⟨b.xMin, 0⟩, ⟨b.xMax, 0⟩]

/-! ## String utilities (JS string operations on `List Char`) -/

/-- JS whitespace characters relevant to `String.prototype.trim` and the
`\s` regex class (ASCII fragment; the source only feeds ASCII text). -/
def wsChar (c : Char) : Bool :=
  c = ' ' || c = '\t' || c = '\n' || c = '\r' || c = '\x0b' || c = '\x0c'

/-- Drop leading JS whitespace. -/
def dropLeadingWs : List Char → List Char
  | [] => []
  | c :: cs => if wsChar c then dropLeadingWs cs else c :: cs

/-- JS `String.prototype.trim`: drop whitespace from both ends. -/
def jsTrim (cs : List Char) : List Char :=
  ((dropLeadingWs ((dropLeadingWs cs).reverse)).reverse)

/-- JS `text.split(/\r?\n/)`: split on `\n`, optionally preceded by `\r`
(the regex is greedy, so `\r\n` is one separator). -/
def splitOnNewlines : List Char → List (List Char)
  | [] => [[]]
  | '\r' :: '\n' :: rest => [] :: splitOnNewlines rest
  | '\n' :: rest => [] :: splitOnNewlines rest
  | c :: rest =>
    match splitOnNewlines rest with
    | [] => [[c]]
    | l :: ls => (c :: l) :: ls

/-- Split on `','` (each comma is one separator, as in `split(/\s*,\s*/)`;
the whitespace absorbed by the regex around each comma is handled by
trimming the resulting fields, which is transparent to `parseFloat`). -/
def splitOnComma : List Char → List (List Char)
  | [] => [[]]
  | ',' :: rest => [] :: splitOnComma rest
  | c :: rest =>
    match splitOnComma rest with
    | [] => [[c]]
    | l :: ls => (c :: l) :: ls

/-- JS `Array.prototype.join(sep)` for a one-character separator. -/
def joinSep (sep : Char) : List (List Char) → List Char
  | [] => []
  | [l] => l
  | l :: ls => l ++ sep :: joinSep sep ls

/-- ASCII `String.prototype.toLowerCase` on one character. -/
def lowerChar (c : Char) : Char :=
  if 'A' ≤ c && c ≤ 'Z' then Char.ofNat (c.toNat + 32) else c

/-- `needle` occurs at the start of `hay`. -/
def beginsWith : List Char → List Char → Bool
  | [], _ => true
  | _ :: _, [] => false
  | a :: as, b :: bs => a = b && beginsWith as bs

/-- JS `String.prototype.includes`: `needle` occurs somewhere in `hay`. -/
def hasSubstr (needle : List Char) : List Char → Bool
  | [] => beginsWith needle []
  | c :: rest => beginsWith needle (c :: rest) || hasSubstr needle rest

/-! ## `parseFloat` and the weight-sequence parser -/

/-- The result of JS `parseFloat`: `NaN`, a signed infinity, or a finite
value (modelled exactly as a rational). -/
inductive JsNum where
  | nan : JsNum
  | inf (pos : Bool) : JsNum
  | val (q : ℚ) : JsNum
deriving Repr, DecidableEq

/-- JS `Number.isFinite` on a `parseFloat` result. -/
def JsNum.isFinite : JsNum → Bool
  | .val _ => true
  | _ => false

/-- Longest leading run of decimal digits, and the rest. -/
def takeDigits : List Char → List Char × List Char
  | [] => ([], [])
  | c :: cs =>
    if c.isDigit then
      let (ds, r) := takeDigits cs
      (c :: ds, r)
    else ([], c :: cs)

/-- Numeric value of a digit string (empty ↦ 0). -/
def digitsToNat (ds : List Char) : ℕ :=
  ds.foldl (fun a c => 10 * a + (c.toNat - 48)) 0

/-- Exponent part after `e`/`E`: optional sign, then longest digit run
(an empty digit run means the exponent marker is trailing junk and is
ignored, i.e. exponent 0 — as `parseFloat` does). -/
def expPart : List Char → Bool × List Char
  | '-' :: r => (true, (takeDigits r).1)
  | '+' :: r => (false, (takeDigits r).1)
  | r => (false, (takeDigits r).1)

/-- JS `parseFloat`: skip leading whitespace, optional sign, `Infinity`
or a decimal literal `digits[.digits][(e|E)[sign]digits]`, parsing the
longest valid prefix and ignoring trailing junk; `NaN` if no number can
be parsed.  The value `±(ip.fp × 10^±e)` is assembled as a single exact
fraction via `mkRat` (mathematically identical to the staged float
arithmetic of the source, made exact over `ℚ`). -/
def jsParseFloat (cs : List Char) : JsNum :=
  let cs1 := dropLeadingWs cs
  let sgn : Bool × List Char :=
    match cs1 with
    | '-' :: r => (true, r)
    | '+' :: r => (false, r)
    | _ => (false, cs1)
  let neg := sgn.1
  let cs2 := sgn.2
  if beginsWith ("Infinity".toList) cs2 then JsNum.inf !neg
  else
    let ipr := takeDigits cs2
    let fpr :=
      match ipr.2 with
      | '.' :: r => takeDigits r
      | _ => ([], ipr.2)
    if ipr.1.isEmpty && fpr.1.isEmpty then JsNum.nan
    else
      let ex :=
        match fpr.2 with
        | 'e' :: r => expPart r
        | 'E' :: r => expPart r
        | _ => (false, [])
      let m : ℕ := digitsToNat ipr.1 * 10 ^ fpr.1.length + digitsToNat fpr.1
      let e : ℕ := digitsToNat ex.2
      let mUp : ℕ := m * (if ex.1 then 1 else 10 ^ e)
      let n : ℤ := if neg then -(mUp : ℤ) else (mUp : ℤ)
      let d : ℕ := 10 ^ fpr.1.length * (if ex.1 then 10 ^ e else 1)
      JsNum.val (mkRat n d)

/-- One row of the loop body of `parseWeightsCsv` (src/app.js lines
183–192): split the line on commas, require at least three fields, parse
the first three with `parseFloat`, and keep the triple only when all
three are finite. -/
def parseWeightLine (line : List Char) : Option Weight :=
  match (splitOnComma line).map jsTrim with
  | p0 :: p1 :: p2 :: _ =>
    match jsParseFloat p0, jsParseFloat p1, jsParseFloat p2 with
    | JsNum.val a, JsNum.val b, JsNum.val c => some ⟨a, b, c⟩
    | _, _, _ => none
  | _ => none

/-- The header test of `parseWeightsCsv`: the lowercased first line
contains each of the substrings `w0`, `w1`, `w2`. -/
def headerLike (line : List Char) : Bool :=
  let f := line.map lowerChar
  hasSubstr ("w0".toList) f && hasSubstr ("w1".toList) f &&
    hasSubstr ("w2".toList) f

/-- The body of `parseWeightsCsv` after line preprocessing: empty line
list ↦ empty sequence; otherwise skip the first line when it is a
header, and keep exactly the rows that parse. -/
def weightRows : List (List Char) → List Weight
  | [] => []
  | first :: rest =>
    (if headerLike first then rest else first :: rest).filterMap
      parseWeightLine

/-- `parseWeightsCsv` (src/app.js lines 174–194): split the text on line
endings, trim each line, discard blank lines, then parse via
`weightRows`. -/
def parseWeightsCsv (text : List Char) : List Weight :=
  weightRows (((splitOnNewlines text).map jsTrim).filter fun l => !l.isEmpty)

/-- A line of text free of line-ending characters. -/
def crlfFree (l : List Char) : Prop := ∀ c ∈ l, c ≠ '\n' ∧ c ≠ '\r'

instance (l : List Char) : Decidable (crlfFree l) :=
  inferInstanceAs (Decidable (∀ c ∈ l, c ≠ '\n' ∧ c ≠ '\r'))

theorem splitOnNewlines_cons (c : Char) (rest : List Char) (hn : c ≠ '\n')
    (hr : c ≠ '\r') :
    splitOnNewlines (c :: rest) =
      match splitOnNewlines rest with
      | [] => [[c]]
      | l :: ls => (c :: l) :: ls := by
  cases rest with
  | nil => simp [splitOnNewlines, hn, hr]
  | cons d ds =>
    cases hd : (d = '\n' : Bool) <;> simp_all [splitOnNewlines]

theorem splitOnNewlines_no_sep (l : List Char) (h : crlfFree l) :
    splitOnNewlines l = [l] := by
  induction l with
  | nil => simp [splitOnNewlines]
  | cons c cs ih =>
    have hc := h c (by simp)
    rw [splitOnNewlines_cons c _ hc.1 hc.2,
      ih (fun d hd => h d (by simp [hd]))]

theorem splitOnNewlines_append (l t : List Char) (h : crlfFree l) :
    splitOnNewlines (l ++ '\n' :: t) = l :: splitOnNewlines t := by
  induction l with
  | nil => simp [splitOnNewlines]
  | cons c cs ih =>
    have hc := h c (by simp)
    have ih' := ih (fun d hd => h d (by simp [hd]))
    rw [List.cons_append, splitOnNewlines_cons c _ hc.1 hc.2, ih']

theorem splitOnNewlines_joinSep (ls : List (List Char)) (hne : ls ≠ [])
    (h : ∀ l ∈ ls, crlfFree l) :
    splitOnNewlines (joinSep '\n' ls) = ls := by
  induction ls with
  | nil => exact absurd rfl hne
  | cons l rest ih =>
    cases rest with
    | nil => exact splitOnNewlines_no_sep l (h l (by simp))
    | cons r rs =>
      have : joinSep '\n' (l :: r :: rs) = l ++ '\n' :: joinSep '\n' (r :: rs) := rfl
      rw [this, splitOnNewlines_append l _ (h l (by simp)),
        ih (by simp) (fun l' hl' => h l' (by simp [hl']))]

/-- The line-level reading of `parseWeightsCsv`: parsing the `'\n'`-join
of any list of (newline-free) lines processes exactly the trimmed
non-blank lines. -/
theorem parseWeightsCsv_joinSep (ls : List (List Char))
    (h : ∀ l ∈ ls, crlfFree l) :
    parseWeightsCsv (joinSep '\n' ls) =
      weightRows ((ls.map jsTrim).filter fun l => !l.isEmpty) := by
  cases ls with
  | nil => simp [parseWeightsCsv, joinSep, splitOnNewlines, jsTrim, dropLeadingWs, weightRows]
  | cons l rest =>
    rw [parseWeightsCsv, splitOnNewlines_joinSep (l :: rest) (by simp) h]

theorem weightRows_append_none (F : List (List Char)) (x : List Char)
    (hx : parseWeightLine x = none) (hh : headerLike x = false) :
    weightRows (F ++ [x]) = weightRows F := by
  cases F with
  | nil => simp [weightRows, hx, hh]
  | cons f fs =>
    simp only [List.cons_append, weightRows]
    by_cases hf : headerLike f <;>
      simp [hf, List.filterMap_append, List.filterMap_cons, hx]

/-- C3: the weight-sequence parser is total (it returns a possibly empty
list for every input); parsing the join of any list of lines processes
exactly the trimmed non-blank lines (so blank lines are ignored and a
leading header line is skipped); appending a malformed row does not
change the result (malformed rows are silently dropped); and the two
concrete examples of the spec hold, with the `bad,row` line dropped and
the header skipped. -/
theorem C3_parser_total_and_examples :
    (∀ ls : List (List Char), (∀ l ∈ ls, crlfFree l) →
      parseWeightsCsv (joinSep '\n' ls) =
        weightRows ((ls.map jsTrim).filter fun l => !l.isEmpty)) ∧
    (∀ ls : List (List Char), (∀ l ∈ ls, crlfFree l) →
      parseWeightsCsv (joinSep '\n' ls) =
        parseWeightsCsv (joinSep '\n' (ls.filter fun l => !(jsTrim l).isEmpty))) ∧
    (∀ (ls : List (List Char)) (l : List Char), (∀ l' ∈ ls, crlfFree l') →
      crlfFree l → parseWeightLine (jsTrim l) = none →
      headerLike (jsTrim l) = false →
      parseWeightsCsv (joinSep '\n' (ls ++ [l])) =
        parseWeightsCsv (joinSep '\n' ls)) ∧
    parseWeightsCsv ("w0,w1,w2\n1,2,3\nbad,row\n4,5,6".toList) =
      [⟨1, 2, 3⟩, ⟨4, 5, 6⟩] ∧
    parseWeightsCsv ("".toList) = [] := by
  refine ⟨parseWeightsCsv_joinSep, fun ls h => ?_, fun ls l h hl hx hh => ?_,
    by decide, by decide⟩
  · rw [parseWeightsCsv_joinSep ls h,
      parseWeightsCsv_joinSep _ (fun l' hl' => h l' (List.mem_of_mem_filter hl'))]
    congr 1
    induction ls with
    | nil => rfl
    | cons a as ih =>
      have ih' := ih (fun l' hl' => h l' (by simp [hl']))
      by_cases ha : (jsTrim a).isEmpty <;> simp [ha, ih']
  · rw [parseWeightsCsv_joinSep _ (by
        intro l' hl'
        rcases List.mem_append.mp hl' with h1 | h1
        · exact h l' h1
        · simpa [List.mem_singleton.mp h1] using hl),
      parseWeightsCsv_joinSep ls h]
    by_cases hblank : (jsTrim l).isEmpty
    · simp [hblank]
    · simp only [List.map_append, List.map_cons, List.map_nil,
        List.filter_append]
      rw [show List.filter (fun l => !l.isEmpty) [jsTrim l] = [jsTrim l] by
        simp [hblank]]
      exact weightRows_append_none _ _ hx hh

/-- Witness for C3: the line-level readings applied at concrete inputs,
hypotheses discharged by computation. -/
theorem C3_parser_total_and_examples_witness :
    (parseWeightsCsv (joinSep '\n' ["1,2,3".toList]) =
      weightRows (([("1,2,3".toList)].map jsTrim).filter fun l => !l.isEmpty)) ∧
    (parseWeightsCsv (joinSep '\n' ["1,2,3".toList, "  ".toList]) =
      parseWeightsCsv (joinSep '\n'
        (["1,2,3".toList, "  ".toList].filter fun l => !(jsTrim l).isEmpty))) ∧
    (parseWeightsCsv (joinSep '\n' (["1,2,3".toList] ++ ["bad,row".toList])) =
      parseWeightsCsv (joinSep '\n' ["1,2,3".toList])) :=
  ⟨C3_parser_total_and_examples.1 _ (by decide),
   C3_parser_total_and_examples.2.1 _ (by decide),
   C3_parser_total_and_examples.2.2.1 _ _ (by decide) (by decide) (by decide)
     (by decide)⟩

/-! ## Dataset generator -/

/-- The clamp `Math.min(10, Math.max(0, x))` of src/app.js lines 43–44. -/
def clampTen (x : ℚ) : ℚ := min 10 (max 0 x)

/-- `generateData` (src/app.js lines 24–48).  `n : ℤ` models the JS
number `n` of the loop `for (let i = 0; i < n; i++)`: a negative `n`
runs zero iterations.  The label test `i < n / 2` of the source (exact
real division in JS) is written equivalently as `2 * i < n`.  Means
`(3, 3.5)` and `(7, 6.5)`, shared std `1.1`, both coordinates clamped
into `[0, 10]`.  `noise k` abstracts the k-th `randn(rng)` draw. -/
def generateData (n : ℤ) (noise : ℕ → ℚ) : List Point :=
  (List.range n.toNat).map fun (i : ℕ) =>
    let y : ℕ := if 2 * (i : ℤ) < n then 0 else 1
    let m1 : ℚ := if y = 0 then 3 else 7
    let m2 : ℚ := if y = 0 then 7 / 2 else 13 / 2
    { x1 := clampTen (m1 + 11 / 10 * noise (2 * i)),
      x2 := clampTen (m2 + 11 / 10 * noise (2 * i + 1)),
      y := y }

/-- `generateData` of the variant src/unnamed/part_000 (lines 24–44):
means `(-1, -0.5)` and `(1.1, 0.7)`, shared std `0.8`, and no clamping
of the sampled coordinates. -/
def generateDataV0 (n : ℤ) (noise : ℕ → ℚ) : List Point :=
  (List.range n.toNat).map fun (i : ℕ) =>
    let y : ℕ := if 2 * (i : ℤ) < n then 0 else 1
    let m1 : ℚ := if y = 0 then -1 else 11 / 10
    let m2 : ℚ := if y = 0 then -1 / 2 else 7 / 10
    { x1 := m1 + 4 / 5 * noise (2 * i),
      x2 := m2 + 4 / 5 * noise (2 * i + 1),
      y := y }

/-- The label sequence of a generated dataset: `n.toNat - n.toNat / 2`
zeros (indices `i` with `i < n / 2`, i.e. `2 * i < n`) followed by
`n.toNat / 2` ones. -/
theorem generateData_map_y (n : ℤ) (noise : ℕ → ℚ) :
    (generateData n noise).map Point.y =
      List.replicate (n.toNat - n.toNat / 2) 0 ++
        List.replicate (n.toNat / 2) 1 := by
  apply List.ext_getElem
  · simp [generateData]
    omega
  · intro i h1 h2
    have hiN : i < n.toNat := by simpa [generateData] using h1
    simp only [generateData, List.getElem_map, List.getElem_range]
    by_cases hi : i < n.toNat - n.toNat / 2
    · rw [List.getElem_append_left (by simpa using hi)]
      have h2i : 2 * (i : ℤ) < n := by omega
      simp [h2i]
    · rw [List.getElem_append_right (by simpa using hi)]
      have h2i : ¬(2 * (i : ℤ) < n) := by omega
      simp [h2i]

theorem countP_replicate_eq {α : Type} (p : α → Bool) (a : α) (k : ℕ) :
    (List.replicate k a).countP p = if p a then k else 0 := by
  induction k with
  | zero => simp
  | succ m ih =>
    rw [List.replicate_succ, List.countP_cons]
    by_cases h : p a <;> simp [h, ih]

/-- C4 (amended): for every `n` and draw stream, `generateData` yields
exactly `n.toNat - n.toNat / 2` points with label 0 followed by
`n.toNat / 2` points with label 1 (all label-0 points precede all
label-1 points). -/
theorem C4_label_counts_and_order (n : ℤ) (noise : ℕ → ℚ) :
    ((generateData n noise).filter (fun p => p.y == 0)).length =
      n.toNat - n.toNat / 2 ∧
    ((generateData n noise).filter (fun p => p.y == 1)).length =
      n.toNat / 2 ∧
    ((generateData n noise).take (n.toNat - n.toNat / 2)).all
      (fun p => p.y == 0) = true ∧
    ((generateData n noise).drop (n.toNat - n.toNat / 2)).all
      (fun p => p.y == 1) = true := by
  have hmap := generateData_map_y n noise
  have hcount : ∀ k : ℕ,
      ((generateData n noise).filter (fun p => p.y == k)).length =
        ((generateData n noise).map Point.y).countP (fun x => x == k) := by
    intro k
    rw [List.countP_map, ← List.countP_eq_length_filter]
    rfl
  refine ⟨?_, ?_, ?_, ?_⟩
  · rw [hcount 0, hmap, List.countP_append, countP_replicate_eq,
      countP_replicate_eq]
    simp
  · rw [hcount 1, hmap, List.countP_append, countP_replicate_eq,
      countP_replicate_eq]
    simp
  · have htake : ((generateData n noise).take
        (n.toNat - n.toNat / 2)).map Point.y =
        List.replicate (n.toNat - n.toNat / 2) 0 := by
      rw [List.map_take, hmap,
        List.take_left' (List.length_replicate _ _)]
    rw [List.all_eq_true]
    intro p hp
    have : p.y ∈ List.replicate (n.toNat - n.toNat / 2) 0 := by
      rw [← htake]; exact List.mem_map_of_mem Point.y hp
    simp [List.eq_of_mem_replicate this]
  · have hdrop : ((generateData n noise).drop
        (n.toNat - n.toNat / 2)).map Point.y =
        List.replicate (n.toNat / 2) 1 := by
      rw [List.map_drop, hmap,
        List.drop_left' (List.length_replicate _ _)]
    rw [List.all_eq_true]
    intro p hp
    have : p.y ∈ List.replicate (n.toNat / 2) 1 := by
      rw [← hdrop]; exact List.mem_map_of_mem Point.y hp
    simp [List.eq_of_mem_replicate this]

/-- Counterexample to C4 as stated: for `n = 1` the generator produces
one point with label 0, but the claim asserts `floor(n/2) = 0` points
with label 0. -/
theorem C4_counterexample :
    ¬(((generateData 1 (fun _ => 0)).filter (fun p => p.y == 0)).length
        = 1 / 2) := by decide

/-- C6 (amended): a non-positive `n` is not rejected: the generation
loop simply runs zero times, so `generateData` returns the empty
dataset for every `n ≤ 0` (in particular `n = 0` yields an empty
dataset, not an error, and negative `n` behaves identically instead of
failing fast). -/
theorem C6_nonpositive_empty (n : ℤ) (noise : ℕ → ℚ) (h : n ≤ 0) :
    generateData n noise = [] := by
  have : n.toNat = 0 := Int.toNat_of_nonpos h
  simp [generateData, this]

/-- Witness for C6: `n = -3` and `n = 0` both yield the empty dataset. -/
theorem C6_nonpositive_empty_witness :
    generateData (-3) (fun _ => 0) = [] ∧
    generateData 0 (fun _ => 0) = [] :=
  ⟨C6_nonpositive_empty (-3) (fun _ => 0) (by decide),
   C6_nonpositive_empty 0 (fun _ => 0) (by decide)⟩

/-- Counterexample for C6 as stated: `generateData` with a negative `n`
returns an (empty) dataset by normal control flow; there is no rejection
or error condition anywhere in its body. -/
theorem C6_counterexample : generateData (-5) (fun _ => 0) = [] := by
  decide

/-- C10: in src/app.js every generated coordinate is clamped into
`[0, 10]`, for every `n` and every draw stream; the src/unnamed/part_000
variant applies no clamp, and a draw of `-1` already sends a coordinate
below 0. -/
theorem C10_clamped_box :
    (∀ (n : ℤ) (noise : ℕ → ℚ), ∀ p ∈ generateData n noise,
      0 ≤ p.x1 ∧ p.x1 ≤ 10 ∧ 0 ≤ p.x2 ∧ p.x2 ≤ 10) ∧
    (∃ p ∈ generateDataV0 1 (fun _ => -1), p.x1 < 0) := by
  constructor
  · intro n noise p hp
    have hcl : ∀ x : ℚ, 0 ≤ clampTen x ∧ clampTen x ≤ 10 := by
      intro x
      refine ⟨le_min (by norm_num) (le_max_left 0 x), min_le_left 10 _⟩
    simp only [generateData, List.mem_map] at hp
    obtain ⟨i, _, rfl⟩ := hp
    exact ⟨(hcl _).1, (hcl _).2, (hcl _).1, (hcl _).2⟩
  · have hgen : generateDataV0 1 (fun _ => -1) =
        [⟨-(9 / 5), -(13 / 10), 0⟩] := by
      simp only [generateDataV0, show (1 : ℤ).toNat = 1 from rfl,
        List.range_succ, List.range_zero, List.nil_append, List.map_cons,
        List.map_nil]
      norm_num
    exact ⟨_, by rw [hgen]; exact List.mem_singleton_self _, by norm_num⟩

/-- Witness for C10: the membership hypothesis discharged at the single
point of `generateData 1` with the zero draw stream. -/
theorem C10_clamped_box_witness :
    0 ≤ (Point.mk (clampTen (3 + 11 / 10 * 0))
        (clampTen (7 / 2 + 11 / 10 * 0)) 0).x1 ∧
      (Point.mk (clampTen (3 + 11 / 10 * 0))
        (clampTen (7 / 2 + 11 / 10 * 0)) 0).x1 ≤ 10 ∧
      0 ≤ (Point.mk (clampTen (3 + 11 / 10 * 0))
        (clampTen (7 / 2 + 11 / 10 * 0)) 0).x2 ∧
      (Point.mk (clampTen (3 + 11 / 10 * 0))
        (clampTen (7 / 2 + 11 / 10 * 0)) 0).x2 ≤ 10 :=
  C10_clamped_box.1 1 (fun _ => 0) _ (by simp [generateData])

/-! ## CSV export -/

/-- The decimal digit character for `d < 10`. -/
def digitChar10 (d : ℕ) : Char := Char.ofNat (48 + d)

/-- Decimal digits of a natural number, most significant first
(fuelled; `natChars` always supplies enough fuel). -/
def natCharsAux : ℕ → ℕ → List Char → List Char
  | 0, _, acc => acc
  | fuel + 1, m, acc =>
    let acc' := digitChar10 (m % 10) :: acc
    if m < 10 then acc' else natCharsAux fuel (m / 10) acc'

/-- JS default decimal rendering of a natural number (`String(n)`). -/
def natChars (m : ℕ) : List Char := natCharsAux (m + 1) m []

/-- Fractional decimal digits of `r / d` (long division, stopping when
the remainder reaches 0; fuelled). -/
def fracChars : ℕ → ℕ → ℕ → List Char
  | 0, _, _ => []
  | _ + 1, 0, _ => []
  | fuel + 1, r, d => digitChar10 (10 * r / d) :: fracChars fuel (10 * r % d) d

/-- JS default decimal rendering `${q}` of a finite number, modelled on
exact rationals: sign, integer part, and the fractional digits when the
expansion terminates (every JS double is a dyadic rational, so its exact
expansion terminates within 1100 digits; JS itself prints the shortest
decimal that round-trips, which agrees with the exact expansion on the
short decimal values exercised here). -/
def numToChars (q : ℚ) : List Char :=
  (if q < 0 then ['-'] else []) ++
    natChars (q.num.natAbs / q.den) ++
    (if q.num.natAbs % q.den = 0 then []
     else '.' :: fracChars 1100 (q.num.natAbs % q.den) q.den)

/-- One data row of `toCsv` (src/app.js line 54): the template string
`${r.x1},${r.x2},${r.y}`. -/
def csvRow (r : Point) : List Char :=
  numToChars r.x1 ++ ',' :: numToChars r.x2 ++ ',' :: natChars r.y

/-- `toCsv` (src/app.js lines 50–57): a `lines` array seeded with the
joined header `["x1","x2","y"].join(",")`, one pushed row per point, and
a final `join("\n")`. -/
def toCsv (rows : List Point) : List Char :=
  joinSep '\n'
    (joinSep ',' ["x1".toList, "x2".toList, "y".toList] :: rows.map csvRow)

theorem foldl_sepAppend_congr (sep : Char) (ls : List (List Char))
    (p acc : List Char) :
    ls.foldl (fun acc l => acc ++ sep :: l) (p ++ acc) =
      p ++ ls.foldl (fun acc l => acc ++ sep :: l) acc := by
  induction ls generalizing acc with
  | nil => rfl
  | cons m ms ih =>
    simp only [List.foldl_cons]
    rw [List.append_assoc]
    exact ih (acc ++ sep :: m)

theorem joinSep_cons_foldl (sep : Char) (a : List Char)
    (ls : List (List Char)) :
    joinSep sep (a :: ls) = ls.foldl (fun acc l => acc ++ sep :: l) a := by
  induction ls generalizing a with
  | nil => rfl
  | cons l ls ih =>
    rw [show joinSep sep (a :: l :: ls) = a ++ sep :: joinSep sep (l :: ls)
        from rfl, List.foldl_cons, ih l]
    have : a ++ sep :: l = (a ++ [sep]) ++ l := by simp
    rw [this, foldl_sepAppend_congr]
    simp

theorem digitChar10_ne (d : ℕ) (h : d < 10) :
    digitChar10 d ≠ '\n' := by
  interval_cases d <;> decide

theorem natCharsAux_ne (fuel m : ℕ) (acc : List Char)
    (hacc : ∀ c ∈ acc, c ≠ '\n') :
    ∀ c ∈ natCharsAux fuel m acc, c ≠ '\n' := by
  induction fuel generalizing m acc with
  | zero => exact hacc
  | succ f ih =>
    intro c hc
    rw [natCharsAux] at hc
    have hd : ∀ c' ∈ digitChar10 (m % 10) :: acc, c' ≠ '\n' := by
      intro c' hc'
      rcases List.mem_cons.mp hc' with h | h
      · exact h ▸ digitChar10_ne _ (Nat.mod_lt _ (by norm_num))
      · exact hacc c' h
    by_cases hm : m < 10
    · simp only [hm, if_pos] at hc
      exact hd c hc
    · simp only [hm, if_neg, not_false_iff] at hc
      exact ih (m / 10) _ hd c hc

theorem natChars_ne (m : ℕ) : ∀ c ∈ natChars m, c ≠ '\n' :=
  natCharsAux_ne _ _ _ (by simp)

theorem fracChars_ne (fuel : ℕ) :
    ∀ r d : ℕ, 0 < d → r < d → ∀ c ∈ fracChars fuel r d, c ≠ '\n' := by
  induction fuel with
  | zero =>
    intro r d _ _ c hc
    simp [fracChars] at hc
  | succ f ih =>
    intro r d hd hr c hc
    cases r with
    | zero => simp [fracChars] at hc
    | succ r' =>
      rw [fracChars] at hc
      · rcases List.mem_cons.mp hc with h | h
        · exact h ▸ digitChar10_ne _
            (Nat.div_lt_of_lt_mul (by omega : 10 * (r' + 1) < d * 10))
        · exact ih (10 * (r' + 1) % d) d hd (Nat.mod_lt _ hd) c h
      · omega

theorem numToChars_ne (q : ℚ) : ∀ c ∈ numToChars q, c ≠ '\n' := by
  intro c hc
  rw [numToChars] at hc
  rcases List.mem_append.mp hc with h | h
  · rcases List.mem_append.mp h with h1 | h1
    · by_cases hq : q < 0 <;> simp [hq] at h1
      simp [h1]
    · exact natChars_ne _ c h1
  · by_cases h0 : q.num.natAbs % q.den = 0
    · simp [h0] at h
    · simp only [h0, if_neg, not_false_iff] at h
      rcases List.mem_cons.mp h with h1 | h1
      · simp [h1]
      · exact fracChars_ne _ _ _ q.pos (Nat.mod_lt _ q.pos) c h1

theorem csvRow_no_newline (r : Point) :
    (csvRow r).contains '\n' = false := by
  rw [List.contains_eq_any_beq, List.any_eq_false]
  intro c hc
  simp only [beq_iff_eq]
  have hcases : c ∈ numToChars r.x1 ∨ c = ',' ∨ c ∈ numToChars r.x2 ∨
      c ∈ natChars r.y := by
    rw [csvRow] at hc
    simp only [List.mem_append, List.mem_cons] at hc
    tauto
  rcases hcases with h | h | h | h
  · exact (numToChars_ne _ c h).symm
  · simp [h]
  · exact (numToChars_ne _ c h).symm
  · exact (natChars_ne _ c h).symm

/-- C9: the CSV export is exactly the header `x1,x2,y` followed, for
each point in order, by a single `'\n'` and that point's row
`x1,x2,y`-value — nothing before the header, nothing after the final
row; an empty dataset exports just the header; and no row contains a
newline of its own (so rows are separated by single newlines and there
is no trailing newline). -/
theorem C9_export_format :
    toCsv [] = "x1,x2,y".toList ∧
    (∀ rows : List Point,
      toCsv rows =
        rows.foldl (fun acc r => acc ++ '\n' :: csvRow r)
          ("x1,x2,y".toList)) ∧
    (∀ r : Point, (csvRow r).contains '\n' = false) := by
  have hhdr : joinSep ',' ["x1".toList, "x2".toList, "y".toList] =
      "x1,x2,y".toList := by decide
  refine ⟨by decide, fun rows => ?_, csvRow_no_newline⟩
  rw [toCsv, hhdr, joinSep_cons_foldl, List.foldl_map]

/-! ## Round trip of weight sequences through `toCsv` -/

/-- The string produced by applying the source's `toCsv` to a sequence
of weight triples: `toCsv` reads the fields `r.x1`, `r.x2`, `r.y`, which
do not exist on a weight triple `{w0,w1,w2}`, so each property access
yields `undefined` and the template string renders every row as
`undefined,undefined,undefined` (JS semantics of missing properties);
the header row is still `x1,x2,y`. -/
def toCsvOnWeights (ws : List Weight) : List Char :=
  joinSep '\n'
    (joinSep ',' ["x1".toList, "x2".toList, "y".toList] ::
      ws.map (fun _ => "undefined,undefined,undefined".toList))

/-- Counterexample to C7 as stated: parsing the CSV serialization that
the code's `toCsv` produces for the weight sequence `[{1,2,3}]` yields
`[]`, not the original sequence. -/
theorem C7_counterexample :
    ¬(parseWeightsCsv (toCsvOnWeights [⟨1, 2, 3⟩]) = [⟨1, 2, 3⟩]) := by
  decide

/-- C7 (amended): for every weight sequence, parsing the output of the
code's `toCsv` on it yields the empty sequence: every row serializes as
`undefined,undefined,undefined` (dropped as non-numeric) and the header
`x1,x2,y` is not recognised as a weight header and is dropped as a
malformed row. -/
theorem C7_roundtrip_empty (ws : List Weight) :
    parseWeightsCsv (toCsvOnWeights ws) = [] := by
  have hu : jsTrim ("undefined,undefined,undefined".toList) =
      "undefined,undefined,undefined".toList := by decide
  have hhdr : jsTrim ("x1,x2,y".toList) = "x1,x2,y".toList := by decide
  have hj : joinSep ',' ["x1".toList, "x2".toList, "y".toList] =
      "x1,x2,y".toList := by decide
  have hcrlf : ∀ l ∈ ("x1,x2,y".toList ::
      ws.map (fun _ => "undefined,undefined,undefined".toList)), crlfFree l := by
    intro l hl
    rcases List.mem_cons.mp hl with h | h
    · subst h; decide
    · obtain ⟨w, _, rfl⟩ := List.mem_map.mp h
      decide
  rw [toCsvOnWeights, hj, parseWeightsCsv_joinSep _ hcrlf]
  have hmap : (("x1,x2,y".toList ::
      ws.map (fun _ => "undefined,undefined,undefined".toList)).map jsTrim) =
      "x1,x2,y".toList ::
        ws.map (fun _ => "undefined,undefined,undefined".toList) := by
    rw [List.map_cons, hhdr, List.map_map]
    congr 1
  rw [hmap]
  have hfilter : (("x1,x2,y".toList ::
      ws.map (fun _ => "undefined,undefined,undefined".toList)).filter
        (fun l => !l.isEmpty)) =
      "x1,x2,y".toList ::
        ws.map (fun _ => "undefined,undefined,undefined".toList) := by
    rw [List.filter_eq_self]
    intro l hl
    rcases List.mem_cons.mp hl with h | h
    · subst h; decide
    · obtain ⟨w, _, rfl⟩ := List.mem_map.mp h
      decide
  rw [hfilter, weightRows, if_neg (by decide), List.filterMap_cons,
    show parseWeightLine ("x1,x2,y".toList) = none from by decide,
    List.filterMap_map, List.filterMap_eq_nil_iff]
  intro w _
  show parseWeightLine ("undefined,undefined,undefined".toList) = none
  decide

/-- C2: the boundary-line computation returns the sloped segment when
`|w2| > 1e-12` (regardless of `w1`, since that test comes first), else the
vertical segment at `-w0/w1` when `|w1| > 1e-12`, else the empty segment;
and the three concrete evaluations of the spec hold. -/
theorem C2_boundary_geometry :
    (∀ (w : Weight) (b : Bounds),
      (|w.w2| > eps →
        decisionLineData w b =
          [⟨b.xMin, -(w.w0 + w.w1 * b.xMin) / w.w2⟩,
           ⟨b.xMax, -(w.w0 + w.w1 * b.xMax) / w.w2⟩]) ∧
      (|w.w2| ≤ eps → |w.w1| > eps →
        decisionLineData w b =
          [⟨-w.w0 / w.w1, b.yMin⟩, ⟨-w.w0 / w.w1, b.yMax⟩]) ∧
      (|w.w2| ≤ eps → |w.w1| ≤ eps → decisionLineData w b = [])) ∧
    decisionLineData ⟨0, 0, 1⟩ ⟨0, 10, 0, 10⟩ = [⟨0, 0⟩, ⟨10, 0⟩] ∧
    decisionLineData ⟨-2, 1, 0⟩ ⟨0, 10, 0, 10⟩ = [⟨2, 0⟩, ⟨2, 10⟩] ∧
    decisionLineData ⟨0, 0, 0⟩ ⟨0, 10, 0, 10⟩ = [] := by
  refine ⟨fun w b => ⟨fun h2 => ?_, fun h2 h1 => ?_, fun h2 h1 => ?_⟩,
    by norm_num [decisionLineData, eps], by norm_num [decisionLineData, eps],
    by norm_num [decisionLineData, eps]⟩
  · simp [decisionLineData, h2]
  · simp [decisionLineData, not_lt.mpr h2, h1]
  · simp [decisionLineData, not_lt.mpr h2, not_lt.mpr h1]

/-- Witness for C2: each hypothesis of the general part discharged at a
concrete weight triple and the bounds `0,10,0,10`. -/
theorem C2_boundary_geometry_witness :
    decisionLineData ⟨0, 0, 1⟩ ⟨0, 10, 0, 10⟩ =
      [⟨0, -(0 + 0 * 0) / 1⟩, ⟨10, -(0 + 0 * 10) / 1⟩] ∧
    decisionLineData ⟨-2, 1, 0⟩ ⟨0, 10, 0, 10⟩ =
      [⟨-(-2) / 1, 0⟩, ⟨-(-2) / 1, 10⟩] ∧
    decisionLineData ⟨0, 0, 0⟩ ⟨0, 10, 0, 10⟩ = [] :=
  ⟨(C2_boundary_geometry.1 ⟨0, 0, 1⟩ ⟨0, 10, 0, 10⟩).1 (by norm_num [eps]),
   (C2_boundary_geometry.1 ⟨-2, 1, 0⟩ ⟨0, 10, 0, 10⟩).2.1 (by norm_num [eps]) (by norm_num [eps]),
   (C2_boundary_geometry.1 ⟨0, 0, 0⟩ ⟨0, 10, 0, 10⟩).2.2 (by norm_num [eps]) (by norm_num [eps])⟩

/-! ## Animation/step state machine -/

/-- The mutable state driving the animation: the loaded weight sequence
(`WEIGHT_STEPS`), the cursor (`stepIndex`, `-1` = baseline), the timer
flag (`animTimer !== null`), the current axis bounds and the boundary
dataset (`chart.data.datasets[2].data`). -/
structure AnimState where
  steps : List Weight
  cursor : ℤ
  timer : Bool
  bounds : Bounds
  line : List Pt
deriving Repr, DecidableEq

/-- `stopAnimation` (src/app.js lines 258–265): clear the timer. -/
def stopAnimation (s : AnimState) : AnimState := { s with timer := false }

/-- The `loadWeightsBtn` handler (src/app.js lines 326–335) after
parsing: stop any animation, replace the sequence, reset the cursor to
`-1`, redraw the baseline. -/
def loadSequence (s : AnimState) (seq : List Weight) : AnimState :=
  { stopAnimation s with
    steps := seq, cursor := -1, line := baselineData s.bounds }

/-- The `stepBtn` handler (src/app.js lines 338–346): no-op on an empty
sequence; otherwise, when the cursor is not yet at the last index,
advance it by one and recompute the boundary from the weight triple at
the new cursor.  (`getD` with a default triple models the source's
direct indexing `WEIGHT_STEPS[stepIndex]`; the guard makes the new
cursor a valid index, so the default is never consulted.) -/
def stepClick (s : AnimState) : AnimState :=
  if s.steps.isEmpty then s
  else if s.cursor < (s.steps.length : ℤ) - 1 then
    { s with
      cursor := s.cursor + 1,
      line := decisionLineData
        (s.steps.getD (s.cursor + 1).toNat ⟨0, 0, 0⟩) s.bounds }
  else s

/-- One tick of the `setInterval` callback (src/app.js lines 361–371):
advance like `stepBtn` while possible, otherwise stop the animation. -/
def animTick (s : AnimState) : AnimState :=
  if s.cursor < (s.steps.length : ℤ) - 1 then
    { s with
      cursor := s.cursor + 1,
      line := decisionLineData
        (s.steps.getD (s.cursor + 1).toNat ⟨0, 0, 0⟩) s.bounds }
  else stopAnimation s

/-- The `animateBtn` handler (src/app.js lines 349–372): no-op on an
empty sequence; pause when running; otherwise start the timer (the
subsequent ticks are modelled by `animTick`). -/
def toggleAnimate (s : AnimState) : AnimState :=
  if s.steps.isEmpty then s
  else if s.timer then stopAnimation s
  else { s with timer := true }

/-- The `resetAnimBtn` handler (src/app.js lines 375–381): stop the
animation, reset the cursor to `-1`, redraw the baseline. -/
def resetAnim (s : AnimState) : AnimState :=
  { stopAnimation s with cursor := -1, line := baselineData s.bounds }

/-- The `regenBtn` handler of src/app.js (lines 285–323), restricted to
its effect on the animation state: stop the animation, reset the cursor
to `-1`, install the new axis bounds computed from the fresh dataset,
and draw the baseline against them ("Always baseline on regenerate"). -/
def regenerate (s : AnimState) (nb : Bounds) : AnimState :=
  { s with
    timer := false, cursor := -1, bounds := nb, line := baselineData nb }

/-- The `regenBtn` handler of the variant src/unnamed/part_000 (lines
260–301): install the new bounds and the default `x2 = 0` line, then —
when a sequence is loaded — keep the current position: recompute the
boundary from the weight triple at the unchanged cursor when the cursor
is `≥ 0`, else the baseline.  The timer and the cursor are untouched. -/
def regenerateV0 (s : AnimState) (nb : Bounds) : AnimState :=
  let s1 := { s with bounds := nb, line := baselineData nb }
  if s1.steps.length > 0 then
    if s1.cursor ≥ 0 then
      { s1 with
        line := decisionLineData
          (s1.steps.getD s1.cursor.toNat ⟨0, 0, 0⟩) nb }
    else { s1 with line := baselineData nb }
  else s1

/-- The state after the initial page load (src/app.js lines 267–272):
no sequence, baseline cursor, no timer, the boundary drawn as the
horizontal reference line across the initial bounds. -/
def initState (b : Bounds) : AnimState :=
  { steps := [], cursor := -1, timer := false, bounds := b,
    line := baselineData b }

/-- The user/timer events that drive the controller. -/
inductive AnimOp where
  | load (seq : List Weight)
  | step
  | tick
  | reset

/-- Dispatch one event to its handler. -/
def applyOp (s : AnimState) : AnimOp → AnimState
  | .load seq => loadSequence s seq
  | .step => stepClick s
  | .tick => animTick s
  | .reset => resetAnim s

/-- Run a sequence of events from a state. -/
def runOps (s : AnimState) (ops : List AnimOp) : AnimState :=
  ops.foldl applyOp s

/-- The cursor invariant: `-1 ≤ cursor ≤ length - 1`. -/
def cursorInRange (s : AnimState) : Prop :=
  -1 ≤ s.cursor ∧ s.cursor ≤ (s.steps.length : ℤ) - 1

/-- C1: with a non-empty loaded sequence, `step()` below the last index
advances the cursor by exactly one and recomputes the boundary from the
weight triple at the new cursor; at the last index it changes nothing.
Loading a length-3 sequence and stepping four times drives the cursor
`-1 → 0 → 1 → 2` with the matching boundary at each step, the fourth
step being a no-op. -/
theorem C1_step_semantics :
    (∀ s : AnimState, s.steps ≠ [] →
      (s.cursor < (s.steps.length : ℤ) - 1 →
        (stepClick s).cursor = s.cursor + 1 ∧
        (stepClick s).steps = s.steps ∧
        (stepClick s).line = decisionLineData
          (s.steps.getD (s.cursor + 1).toNat ⟨0, 0, 0⟩) s.bounds) ∧
      (s.cursor = (s.steps.length : ℤ) - 1 → stepClick s = s)) ∧
    (∀ (s : AnimState) (a b c : Weight),
      (loadSequence s [a, b, c]).cursor = -1 ∧
      (stepClick (loadSequence s [a, b, c])).cursor = 0 ∧
      (stepClick (loadSequence s [a, b, c])).line =
        decisionLineData a s.bounds ∧
      (stepClick (stepClick (loadSequence s [a, b, c]))).cursor = 1 ∧
      (stepClick (stepClick (loadSequence s [a, b, c]))).line =
        decisionLineData b s.bounds ∧
      (stepClick (stepClick (stepClick (loadSequence s [a, b, c])))).cursor
        = 2 ∧
      (stepClick (stepClick (stepClick (loadSequence s [a, b, c])))).line =
        decisionLineData c s.bounds ∧
      stepClick (stepClick (stepClick (stepClick (loadSequence s [a, b, c]))))
        = stepClick (stepClick (stepClick (loadSequence s [a, b, c])))) := by
  constructor
  · intro s hne
    have hempty : s.steps.isEmpty = false := by
      simpa [List.isEmpty_iff] using hne
    constructor
    · intro hlt
      rw [stepClick, if_neg (by simp [hempty]), if_pos hlt]
      exact ⟨rfl, rfl, rfl⟩
    · intro heq
      rw [stepClick, if_neg (by simp [hempty]), if_neg (by omega)]
  · intro s a b c
    have h0 : loadSequence s [a, b, c] =
        ⟨[a, b, c], -1, false, s.bounds, baselineData s.bounds⟩ := rfl
    have h1 : stepClick (⟨[a, b, c], -1, false, s.bounds,
        baselineData s.bounds⟩ : AnimState) =
        ⟨[a, b, c], 0, false, s.bounds, decisionLineData a s.bounds⟩ := by
      rw [stepClick, if_neg (by simp), if_pos (by norm_num)]
      rfl
    have h2 : stepClick (⟨[a, b, c], 0, false, s.bounds,
        decisionLineData a s.bounds⟩ : AnimState) =
        ⟨[a, b, c], 1, false, s.bounds, decisionLineData b s.bounds⟩ := by
      rw [stepClick, if_neg (by simp), if_pos (by norm_num)]
      rfl
    have h3 : stepClick (⟨[a, b, c], 1, false, s.bounds,
        decisionLineData b s.bounds⟩ : AnimState) =
        ⟨[a, b, c], 2, false, s.bounds, decisionLineData c s.bounds⟩ := by
      rw [stepClick, if_neg (by simp), if_pos (by norm_num)]
      rfl
    have h4 : stepClick (⟨[a, b, c], 2, false, s.bounds,
        decisionLineData c s.bounds⟩ : AnimState) =
        ⟨[a, b, c], 2, false, s.bounds, decisionLineData c s.bounds⟩ := by
      rw [stepClick, if_neg (by simp), if_neg (by norm_num)]
    rw [h0, h1, h2, h3, h4]
    exact ⟨rfl, rfl, rfl, rfl, rfl, rfl, rfl, rfl⟩

/-- Witness for C1: the step semantics at a concrete one-step state
(advancing case) and at a concrete last-index state (no-op case). -/
theorem C1_step_semantics_witness :
    ((stepClick ⟨[⟨1, 2, 3⟩], -1, false, ⟨0, 10, 0, 10⟩, []⟩).cursor =
        -1 + 1 ∧
      (stepClick ⟨[⟨1, 2, 3⟩], -1, false, ⟨0, 10, 0, 10⟩, []⟩).steps =
        [⟨1, 2, 3⟩] ∧
      (stepClick ⟨[⟨1, 2, 3⟩], -1, false, ⟨0, 10, 0, 10⟩, []⟩).line =
        decisionLineData
          (([⟨1, 2, 3⟩] : List Weight).getD ((-1 : ℤ) + 1).toNat ⟨0, 0, 0⟩)
          ⟨0, 10, 0, 10⟩) ∧
    stepClick ⟨[⟨1, 2, 3⟩], 0, false, ⟨0, 10, 0, 10⟩, []⟩ =
      ⟨[⟨1, 2, 3⟩], 0, false, ⟨0, 10, 0, 10⟩, []⟩ :=
  ⟨(C1_step_semantics.1 ⟨[⟨1, 2, 3⟩], -1, false, ⟨0, 10, 0, 10⟩, []⟩
      (by decide)).1 (by decide),
   (C1_step_semantics.1 ⟨[⟨1, 2, 3⟩], 0, false, ⟨0, 10, 0, 10⟩, []⟩
      (by decide)).2 (by decide)⟩

theorem cursorInRange_applyOp (s : AnimState) (op : AnimOp)
    (h : cursorInRange s) : cursorInRange (applyOp s op) := by
  obtain ⟨h1, h2⟩ := h
  cases op with
  | load seq =>
    exact ⟨by show (-1 : ℤ) ≤ -1; norm_num,
      by show (-1 : ℤ) ≤ (seq.length : ℤ) - 1; omega⟩
  | step =>
    by_cases he : s.steps.isEmpty
    · have hid : applyOp s AnimOp.step = s := by
        simp [applyOp, stepClick, he]
      rw [hid]
      exact ⟨h1, h2⟩
    · by_cases hlt : s.cursor < (s.steps.length : ℤ) - 1
      · have hc : (applyOp s AnimOp.step).cursor = s.cursor + 1 := by
          simp [applyOp, stepClick, he, hlt]
        have hs : (applyOp s AnimOp.step).steps = s.steps := by
          simp [applyOp, stepClick, he, hlt]
        exact ⟨by rw [hc]; omega, by rw [hc, hs]; omega⟩
      · have hid : applyOp s AnimOp.step = s := by
          simp [applyOp, stepClick, he, hlt]
        rw [hid]
        exact ⟨h1, h2⟩
  | tick =>
    by_cases hlt : s.cursor < (s.steps.length : ℤ) - 1
    · have hc : (applyOp s AnimOp.tick).cursor = s.cursor + 1 := by
        simp [applyOp, animTick, hlt]
      have hs : (applyOp s AnimOp.tick).steps = s.steps := by
        simp [applyOp, animTick, hlt]
      exact ⟨by rw [hc]; omega, by rw [hc, hs]; omega⟩
    · have hc : (applyOp s AnimOp.tick).cursor = s.cursor := by
        simp [applyOp, animTick, hlt, stopAnimation]
      have hs : (applyOp s AnimOp.tick).steps = s.steps := by
        simp [applyOp, animTick, hlt, stopAnimation]
      exact ⟨by rw [hc]; omega, by rw [hc, hs]; omega⟩
  | reset =>
    exact ⟨by show (-1 : ℤ) ≤ -1; norm_num,
      by show (-1 : ℤ) ≤ (s.steps.length : ℤ) - 1; omega⟩

theorem cursorInRange_runOps (ops : List AnimOp) :
    ∀ s : AnimState, cursorInRange s → cursorInRange (runOps s ops) := by
  induction ops with
  | nil => exact fun s h => h
  | cons op rest ih =>
    exact fun s h => ih (applyOp s op) (cursorInRange_applyOp s op h)

/-- C8: starting from the initial page state, after any sequence of
`loadSequence`, `step`, animation-tick and `reset` operations the cursor
lies in `[-1, length - 1]` for the currently loaded sequence. -/
theorem C8_cursor_invariant (b : Bounds) (ops : List AnimOp) :
    cursorInRange (runOps (initState b) ops) :=
  cursorInRange_runOps ops (initState b)
    ⟨by simp [initState, cursorInRange], by simp [initState, cursorInRange]⟩

/-- Counterexample to C5 as stated: in src/app.js, regenerating the
dataset from a state whose cursor is 0 resets the cursor to `-1` —
regeneration does alter the animation cursor. -/
theorem C5_counterexample :
    (regenerate ⟨[⟨1, 1, 1⟩], 0, false, ⟨0, 10, 0, 10⟩, []⟩
        ⟨0, 10, 0, 10⟩).cursor ≠
      (AnimState.mk [⟨1, 1, 1⟩] 0 false ⟨0, 10, 0, 10⟩ []).cursor := by
  decide

/-- C5 (amended): in src/app.js, `regenerateDataset` leaves the loaded
weight sequence unchanged but stops the animation, resets the cursor to
`-1` and redraws the baseline against the new axis bounds; in the
src/unnamed/part_000 variant the cursor and sequence are unchanged and
the boundary is recomputed against the new bounds from the weight
triple at the current cursor (or the baseline when the cursor is
`-1`). -/
theorem C5_regenerate_effects (s : AnimState) (nb : Bounds) :
    (regenerate s nb).steps = s.steps ∧
    (regenerate s nb).cursor = -1 ∧
    (regenerate s nb).bounds = nb ∧
    (regenerate s nb).line = baselineData nb ∧
    (regenerateV0 s nb).steps = s.steps ∧
    (regenerateV0 s nb).cursor = s.cursor ∧
    (regenerateV0 s nb).bounds = nb ∧
    (0 ≤ s.cursor → s.steps ≠ [] →
      (regenerateV0 s nb).line =
        decisionLineData (s.steps.getD s.cursor.toNat ⟨0, 0, 0⟩) nb) ∧
    (s.cursor < 0 → (regenerateV0 s nb).line = baselineData nb) := by
  refine ⟨rfl, rfl, rfl, rfl, ?_, ?_, ?_, ?_, ?_⟩
  · by_cases hlen : s.steps.length > 0 <;>
      by_cases hc : s.cursor ≥ 0 <;> simp [regenerateV0, hlen, hc]
  · by_cases hlen : s.steps.length > 0 <;>
      by_cases hc : s.cursor ≥ 0 <;> simp [regenerateV0, hlen, hc]
  · by_cases hlen : s.steps.length > 0 <;>
      by_cases hc : s.cursor ≥ 0 <;> simp [regenerateV0, hlen, hc]
  · intro hc hne
    have hlen : s.steps.length > 0 := List.length_pos.mpr hne
    simp [regenerateV0, hlen, hc]
  · intro hneg
    have hnc : ¬(0 ≤ s.cursor) := by omega
    by_cases hlen : s.steps.length > 0 <;>
      simp [regenerateV0, hlen, hnc]

/-- Witness for C5: the part_000 regeneration applied at a concrete
state with cursor 0 (boundary kept) and at one with cursor `-1`
(baseline kept). -/
theorem C5_regenerate_effects_witness :
    (regenerateV0 ⟨[⟨1, 1, 1⟩], 0, false, ⟨0, 10, 0, 10⟩, []⟩
        ⟨0, 5, 0, 5⟩).line =
      decisionLineData
        (([⟨1, 1, 1⟩] : List Weight).getD (0 : ℤ).toNat ⟨0, 0, 0⟩)
        ⟨0, 5, 0, 5⟩ ∧
    (regenerateV0 ⟨[⟨1, 1, 1⟩], -1, false, ⟨0, 10, 0, 10⟩, []⟩
        ⟨0, 5, 0, 5⟩).line = baselineData ⟨0, 5, 0, 5⟩ :=
  ⟨(C5_regenerate_effects ⟨[⟨1, 1, 1⟩], 0, false, ⟨0, 10, 0, 10⟩, []⟩
      ⟨0, 5, 0, 5⟩).2.2.2.2.2.2.2.1 (by decide) (by decide),
   (C5_regenerate_effects ⟨[⟨1, 1, 1⟩], -1, false, ⟨0, 10, 0, 10⟩, []⟩
      ⟨0, 5, 0, 5⟩).2.2.2.2.2.2.2.2 (by decide)⟩
